import Mathlib

/-
Verification of the directory-backup utility (src/backup.py) against its
specification. The Python source is shallowly embedded: paths are lists of
characters, filesystem state is passed explicitly, and each operation of the
script becomes a Lean definition mirroring the source line by line.
-/

namespace Backup

/- A POSIX path, as the list of its characters. -/
abbrev Path := List Char

/- os.path.join(a, b) for a single extra component (posixpath.join). -/
def joinPath (a b : Path) : Path :=
  if b.take 1 = ['/'] then b
  else if a = [] then b
  else if a.getLast? = some '/' then a ++ b
  else a ++ '/' :: b

/- os.path.basename: everything after the last slash (posixpath.basename). -/
def basename (s : Path) : Path :=
  (s.reverse.takeWhile (fun c => c ≠ '/')).reverse

/- The head of a path, everything up to and including the last slash. -/
def dirnameHead (s : Path) : Path :=
  (s.reverse.dropWhile (fun c => c ≠ '/')).reverse

/- os.path.dirname (posixpath.dirname): the head up to the last slash, with
trailing slashes stripped unless the head consists of slashes only. -/
def dirname (s : Path) : Path :=
  if (dirnameHead s).all (fun c => c = '/') then dirnameHead s
  else ((dirnameHead s).reverse.dropWhile (fun c => c = '/')).reverse

/- The final component of a path, everything after the last slash. -/
def finalComponent (s : Path) : Path :=
  (s.reverse.takeWhile (fun c => c ≠ '/')).reverse

/- The characters after the last dot of the final component, reversed. -/
def extTailRev (s : Path) : Path :=
  (finalComponent s).reverse.takeWhile (fun c => c ≠ '.')

/- os.path.splitext (posixpath.splitext): split the final component at its
last dot, unless every character of the component before that dot is a dot
(leading dots do not start an extension). -/
def splitext (s : Path) : Path × Path :=
  if (extTailRev s).length = (finalComponent s).length then (s, [])
  else if ((finalComponent s).take
      ((finalComponent s).length - (extTailRev s).length - 1)).any (fun c => c ≠ '.') then
    (s.take (s.length - (extTailRev s).length - 1), '.' :: (extTailRev s).reverse)
  else (s, [])

/- os.path.normpath (posixpath.normpath): collapse repeated slashes and
resolve the dot and dot-dot components, keeping one or two leading slashes. -/
def normpath (p : Path) : Path :=
  if p = [] then ['.']
  else
    let initSlashes : Nat :=
      if p.take 2 = ['/', '/'] ∧ p.take 3 ≠ ['/', '/', '/'] then 2
      else if p.take 1 = ['/'] then 1 else 0
    let comps := p.splitOn '/'
    let newComps := comps.foldl (fun acc comp =>
      if comp = [] ∨ comp = ['.'] then acc
      else if comp ≠ ['.', '.'] ∨ (initSlashes = 0 ∧ acc = [])
              ∨ acc.getLast? = some ['.', '.'] then acc ++ [comp]
      else if acc ≠ [] then acc.dropLast
      else acc) []
    let path := List.replicate initSlashes '/' ++ List.intercalate ['/'] newComps
    if path = [] then ['.'] else path

/- One entry of the backup directory, as seen by glob and os.path.getmtime:
its file name (within the directory) and its modification time. -/
structure FileEntry where
  name : String
  mtime : Nat
  deriving DecidableEq, Repr

/- Whether a file name matches the glob pattern backup_*.tar.gz used at
line 123 of the source (the star of glob matches any run of characters of a
file name). -/
def matchesBackupPattern (name : String) : Bool :=
  List.isPrefixOf "backup_".toList name.toList &&
  List.isSuffixOf ".tar.gz".toList (name.toList.drop 7)

/- Stable insertion of one entry into a list sorted by modification time,
keeping ties in their original order, as the stable sorted(...) of line 130. -/
def insertByMtime (x : FileEntry) : List FileEntry → List FileEntry
  | [] => [x]
  | y :: ys => if x.mtime ≤ y.mtime then x :: y :: ys else y :: insertByMtime x ys

/- sorted(arquivos, key=os.path.getmtime): ascending, oldest first. -/
def sortByMtime : List FileEntry → List FileEntry
  | [] => []
  | x :: xs => insertByMtime x (sortByMtime xs)

/- The Python slice l[:-k]: empty when k = 0 (since -0 is 0), otherwise all
but the last k elements. -/
def pySliceDropLast (l : List FileEntry) (k : Nat) : List FileEntry :=
  if k = 0 then [] else l.take (l.length - k)

/- Lines 122-133 of limpar_backups_antigos: the files selected for removal,
namely arquivos_ordenados[:-manter_quantidade] when more than
manter_quantidade matching files exist, and nothing otherwise. -/
def arquivos_para_remover (dir : List FileEntry) (manter : Nat) : List FileEntry :=
  let arquivos := dir.filter (fun f => matchesBackupPattern f.name)
  let arquivos_ordenados := sortByMtime arquivos
  if arquivos_ordenados.length > manter
  then pySliceDropLast arquivos_ordenados manter
  else []

/- The deletion loop of lines 138-149: each os.remove is attempted under its
own try, so one failing entry (canDelete returning false) is recorded as an
error and the loop continues with the remaining entries. Returns the names
removed and the names whose removal failed, in iteration order. -/
def deleteLoop (canDelete : String → Bool) : List FileEntry → List String × List String
  | [] => ([], [])
  | f :: fs =>
    let r := deleteLoop canDelete fs
    if canDelete f.name then (f.name :: r.1, r.2) else (r.1, f.name :: r.2)

/- The observable outcome of one run of limpar_backups_antigos. -/
structure PruneRun where
  removed : List String
  failedNames : List String
  result : Bool
  deriving DecidableEq, Repr

/- limpar_backups_antigos (lines 108-157): select the removal candidates,
attempt each deletion independently, and return True (line 151) on this
path regardless of per-entry failures. -/
def limpar_backups_antigos (dir : List FileEntry) (manter : Nat)
    (canDelete : String → Bool) : PruneRun :=
  let r := deleteLoop canDelete (arquivos_para_remover dir manter)
  ⟨r.1, r.2, true⟩

/- The directory contents after the prune run: the entries whose names were
actually removed are gone, all others remain. -/
def dirAfterPrune (dir : List FileEntry) (manter : Nat)
    (canDelete : String → Bool) : List FileEntry :=
  dir.filter (fun f => !((limpar_backups_antigos dir manter canDelete).removed.contains f.name))

/- The compression ratio of lines 88 and 233: uncompressed size divided by
compressed size when the compressed size is positive, zero otherwise. -/
def taxa_compressao (tar_size gz_size : Nat) : ℚ :=
  if gz_size > 0 then (tar_size : ℚ) / (gz_size : ℚ) else 0

/- One observable action of the script on the world: a directory creation
(os.makedirs), a file creation (shutil.make_archive output, gzip output, or
the log FileHandler), a file removal (os.remove), the logging of the fatal
missing-source error, or the invocation of the retention step. -/
inductive Effect where
  | makedirs : Path → Effect
  | createFile : Path → Effect
  | removeFile : Path → Effect
  | logErrorMissing : Effect
  | pruneCall : Path → Nat → Effect
  deriving DecidableEq, Repr

/- The observable outcome of the success path of comprimir_pasta. -/
structure ComprimirRun where
  temp_tar : Path
  base_name : Path
  root_dir : Path
  base_dir : Path
  taxa : ℚ
  effects : List Effect
  ret : Bool

/- comprimir_pasta (lines 44-105), success path. The temporary name is
arquivo_destino + ".temp.tar" (line 60); shutil.make_archive is called with
base name os.path.splitext(temp_tar)[0] and format tar (so it writes the
file base_name + ".tar"), with root_dir the dirname of the source and
base_dir its basename (lines 66-71); the gzip pass creates arquivo_destino
(lines 82-84); the ratio is computed from the two observed sizes (line 88);
the temporary file is removed before returning (line 91); True is returned
(line 99). -/
def comprimir_pasta (pasta_origem arquivo_destino : Path)
    (tar_size gz_size : Nat) : ComprimirRun :=
  let temp_tar := arquivo_destino ++ ".temp.tar".toList
  let base_name := (splitext temp_tar).1
  ⟨temp_tar, base_name, dirname pasta_origem, basename pasta_origem,
   taxa_compressao tar_size gz_size,
   [Effect.createFile (base_name ++ ".tar".toList),
    Effect.createFile arquivo_destino,
    Effect.removeFile temp_tar],
   true⟩

/- main (lines 160-246), as the list of its observable actions. The world is
supplied explicitly: whether the source directory exists, the sizes observed
by the two getsize calls, the contents of the destination directory seen by
glob, and which deletions succeed. Lines 176-177 create the logs directory;
line 187 opens the log file (the default name of lines 180-182 when no -l
argument is given); line 202 tests the source and on failure logs the error
and returns (lines 203-204); otherwise line 206 creates the destination,
line 224 runs comprimir_pasta on the archive name of lines 209-214, and
line 240 runs limpar_backups_antigos. -/
def main_run (pasta_origem pasta_destino : Path) (manter : Nat)
    (log_arg : Option Path) (timestamp : Path) (sourceExists : Bool)
    (tar_size gz_size : Nat) (destDir : List FileEntry)
    (canDelete : String → Bool) : List Effect :=
  let log_dir := joinPath pasta_destino "logs".toList
  let log_file := log_arg.getD (joinPath log_dir ("backup_".toList ++ timestamp ++ ".log".toList))
  Effect.makedirs log_dir :: Effect.createFile log_file ::
  (if sourceExists then
    let nome_pasta := basename (normpath pasta_origem)
    let arquivo_backup := joinPath pasta_destino
      ("backup_".toList ++ nome_pasta ++ "_".toList ++ timestamp ++ ".tar.gz".toList)
    Effect.makedirs pasta_destino ::
    (comprimir_pasta pasta_origem arquivo_backup tar_size gz_size).effects ++
    Effect.pruneCall pasta_destino manter ::
    (limpar_backups_antigos destDir manter canDelete).removed.map
      (fun n => Effect.removeFile n.toList)
  else
    [Effect.logErrorMissing])

/- A regular file of the directory tree walked by calcular_tamanho_diretorio:
its name and, when os.path.exists succeeds on it, its size. -/
structure FSFile where
  name : String
  size : Option Nat
  deriving DecidableEq, Repr

mutual

/- A directory: its regular files and its subdirectories, as visited by
os.walk. -/
inductive FSTree where
  | node : List FSFile → FSForest → FSTree

/- A list of subdirectories. -/
inductive FSForest where
  | nil : FSForest
  | cons : FSTree → FSForest → FSForest

end

/- The contribution of one walked file at lines 253-256: its size when the
os.path.exists check passes, nothing otherwise. -/
def tamanho_arquivo (f : FSFile) : Nat :=
  match f.size with
  | some n => n
  | none => 0

mutual

/- calcular_tamanho_diretorio (lines 249-257): accumulate the sizes of the
existing files of every directory reached by os.walk. -/
def calcular_tamanho_diretorio : FSTree → Nat
  | .node files subs =>
    files.foldl (fun acc f => acc + tamanho_arquivo f) 0 + calcular_tamanho_forest subs

/- The walk over a list of subdirectories. -/
def calcular_tamanho_forest : FSForest → Nat
  | .nil => 0
  | .cons t ts => calcular_tamanho_diretorio t + calcular_tamanho_forest ts

end

mutual

/- Specification-side view: every file reachable under a directory. -/
def allFiles : FSTree → List FSFile
  | .node files subs => files ++ allFilesForest subs

/- Every file reachable under a list of subdirectories. -/
def allFilesForest : FSForest → List FSFile
  | .nil => []
  | .cons t ts => allFiles t ++ allFilesForest ts

end

/- formatar_tamanho (lines 260-266): walk the unit list, returning the
current value and unit as soon as the value drops below 1024, dividing by
1024 otherwise, and falling through to PB after TB. The running value is
kept as an exact rational. -/
def formatar_tamanho_loop : List String → ℚ → ℚ × String
  | [], t => (t, "PB")
  | u :: us, t => if t < 1024 then (t, u) else formatar_tamanho_loop us (t / 1024)

/- formatar_tamanho on a byte count. -/
def formatar_tamanho (n : Nat) : ℚ × String :=
  formatar_tamanho_loop ["B", "KB", "MB", "GB", "TB"] (n : ℚ)

/- Specification-side view of the unit choice: the largest binary unit whose
scaled value stays below 1024, PB above the TB range. -/
def specUnit (n : Nat) : String :=
  if n < 1024 then "B"
  else if n < 1024 ^ 2 then "KB"
  else if n < 1024 ^ 3 then "MB"
  else if n < 1024 ^ 4 then "GB"
  else if n < 1024 ^ 5 then "TB"
  else "PB"

/- Specification-side view of the number of divisions by 1024 performed
before the loop of formatar_tamanho stops. -/
def unitIndex (n : Nat) : Nat :=
  if n < 1024 then 0
  else if n < 1024 ^ 2 then 1
  else if n < 1024 ^ 3 then 2
  else if n < 1024 ^ 4 then 3
  else if n < 1024 ^ 5 then 4
  else 5

/- Whether an effect creates a file. -/
def isCreateFile : Effect → Bool
  | .createFile _ => true
  | _ => false

/- Whether an effect is the invocation of the retention step. -/
def isPruneCall : Effect → Bool
  | .pruneCall _ _ => true
  | _ => false

/- Whether an effect is the logging of the missing-source error. -/
def isLogErrorMissing : Effect → Bool
  | .logErrorMissing => true
  | _ => false

/- Whether an effect mutates the filesystem. -/
def isMutation : Effect → Bool
  | .makedirs _ => true
  | .createFile _ => true
  | .removeFile _ => true
  | _ => false

/- Membership is preserved by the stable insertion. -/
theorem mem_insertByMtime {a x : FileEntry} {l : List FileEntry} :
    a ∈ insertByMtime x l ↔ a = x ∨ a ∈ l := by
  induction l with
  | nil => simp [insertByMtime]
  | cons y ys ih =>
    by_cases h : x.mtime ≤ y.mtime
    · simp [insertByMtime, h]
    · simp [insertByMtime, h, ih]
      tauto

/- Sorting by modification time preserves membership. -/
theorem mem_sortByMtime {a : FileEntry} {l : List FileEntry} :
    a ∈ sortByMtime l ↔ a ∈ l := by
  induction l with
  | nil => simp [sortByMtime]
  | cons x xs ih => simp [sortByMtime, mem_insertByMtime, ih]

/- An element of a prefix of a list is an element of the list. -/
theorem mem_of_mem_take {α : Type} {a : α} {n : Nat} {l : List α}
    (h : a ∈ l.take n) : a ∈ l := by
  rw [← List.take_append_drop n l]
  exact List.mem_append_left _ h

/- Every removal candidate of the retention step matches the backup
naming pattern. -/
theorem mem_para_remover_matches {dir : List FileEntry} {k : Nat} {f : FileEntry}
    (h : f ∈ arquivos_para_remover dir k) : matchesBackupPattern f.name = true := by
  simp only [arquivos_para_remover] at h
  split at h
  · unfold pySliceDropLast at h
    split at h
    · simp at h
    · have h2 := mem_of_mem_take h
      rw [mem_sortByMtime] at h2
      exact (List.mem_filter.mp h2).2
  · simp at h

/- The names removed by the deletion loop are exactly the names of the
candidates that canDelete accepts, in order. -/
theorem deleteLoop_fst (cd : String → Bool) (l : List FileEntry) :
    (deleteLoop cd l).1 = (l.filter (fun f => cd f.name)).map FileEntry.name := by
  induction l with
  | nil => simp [deleteLoop]
  | cons f fs ih =>
    by_cases h : cd f.name
    · simp [deleteLoop, h, List.filter_cons, ih]
    · simp [deleteLoop, h, List.filter_cons, ih]

/- Every name removed by the prune run matches the backup naming pattern. -/
theorem removed_matches {dir : List FileEntry} {k : Nat} {cd : String → Bool} {nm : String}
    (h : nm ∈ (limpar_backups_antigos dir k cd).removed) :
    matchesBackupPattern nm = true := by
  have h2 : nm ∈ (deleteLoop cd (arquivos_para_remover dir k)).1 := h
  rw [deleteLoop_fst] at h2
  obtain ⟨f, hf, hfn⟩ := List.mem_map.mp h2
  rw [← hfn]
  exact mem_para_remover_matches (List.mem_filter.mp hf).1

/-- Claim C1, refuting evaluation at the failing input: a backup directory
holding exactly one file matching the backup pattern, pruned with retain
count 0, removes nothing and keeps the file, while the claim demands that
max(0, 1 - 0) = 1 file be removed and min(1, 0) = 0 remain. The slice
arquivos_ordenados[:-manter_quantidade] of line 133 is empty when
manter_quantidade is 0, so the code keeps every archive instead of none. -/
theorem C1_retention_zero_eval :
    (([⟨"backup_a.tar.gz", 0⟩] : List FileEntry).filter
        (fun f => matchesBackupPattern f.name)).length = 1 ∧
    (limpar_backups_antigos [⟨"backup_a.tar.gz", 0⟩] 0 (fun _ => true)).removed = [] ∧
    dirAfterPrune [⟨"backup_a.tar.gz", 0⟩] 0 (fun _ => true) = [⟨"backup_a.tar.gz", 0⟩] := by
  decide

/-- Claim C2: the prune step only deletes files whose names match the
backup_*.tar.gz pattern (every removed name matches), and the non-matching
files of the directory are exactly preserved. -/
theorem C2_prune_frame (dir : List FileEntry) (k : Nat) (cd : String → Bool) :
    ((limpar_backups_antigos dir k cd).removed.all matchesBackupPattern = true) ∧
    ((dirAfterPrune dir k cd).filter (fun f => !matchesBackupPattern f.name)
      = dir.filter (fun f => !matchesBackupPattern f.name)) := by
  constructor
  · exact List.all_eq_true.mpr (fun x hx => removed_matches hx)
  · unfold dirAfterPrune
    rw [List.filter_filter]
    apply List.filter_congr
    intro f hf
    by_cases hm : matchesBackupPattern f.name
    · simp [hm]
    · have hnot : f.name ∉ (limpar_backups_antigos dir k cd).removed := by
        intro hmem
        exact hm (removed_matches hmem)
      simp [hm, hnot]

/-- Claim C3: the prune run returns success on its normal path regardless of
per-entry deletion failures, and the names actually removed are exactly the
candidates whose individual deletion succeeds, so one failing entry never
prevents the deletion of the remaining candidates. -/
theorem C3_prune_failure_tolerant (dir : List FileEntry) (k : Nat) (cd : String → Bool) :
    (limpar_backups_antigos dir k cd).result = true ∧
    (limpar_backups_antigos dir k cd).removed
      = ((arquivos_para_remover dir k).filter (fun f => cd f.name)).map FileEntry.name :=
  ⟨rfl, deleteLoop_fst cd (arquivos_para_remover dir k)⟩

/-- Claim C4: the compression ratio reported by the archiver equals the
uncompressed size divided by the compressed size when the compressed size
is positive, and equals 0 when the compressed size is 0, so the guard of
lines 88 and 233 rules out a division by zero. -/
theorem C4_taxa_compressao (o d : Path) (t g : Nat) :
    (0 < g → (comprimir_pasta o d t g).taxa = (t : ℚ) / (g : ℚ)) ∧
    (comprimir_pasta o d t 0).taxa = 0 := by
  constructor
  · intro h
    simp [comprimir_pasta, taxa_compressao, h]
  · simp [comprimir_pasta, taxa_compressao]

/-- Witness for claim C4 at uncompressed size 6 and compressed sizes 2
and 0. -/
theorem C4_taxa_compressao_witness :
    (comprimir_pasta [] [] 6 2).taxa = (6 : ℚ) / (2 : ℚ) ∧
    (comprimir_pasta [] [] 6 0).taxa = 0 :=
  ⟨(C4_taxa_compressao [] [] 6 2).1 (by norm_num), (C4_taxa_compressao [] [] 6 0).2⟩

/- Folding the per-file accumulation of calcular_tamanho_diretorio equals
the sum of the sizes that exist. -/
theorem foldl_tamanho (files : List FSFile) (a : Nat) :
    files.foldl (fun acc f => acc + tamanho_arquivo f) a
      = a + (files.filterMap FSFile.size).sum := by
  induction files generalizing a with
  | nil => simp
  | cons f fs ih =>
    rw [List.foldl_cons, ih]
    cases hf : f.size with
    | none => simp [tamanho_arquivo, List.filterMap_cons, hf]
    | some n => simp [tamanho_arquivo, List.filterMap_cons, hf, Nat.add_assoc]

mutual

/- The walked total of a directory equals the sum of the sizes of all
reachable files whose stat succeeds. -/
theorem calc_eq_tree (t : FSTree) :
    calcular_tamanho_diretorio t = ((allFiles t).filterMap FSFile.size).sum := by
  cases t with
  | node files subs =>
    rw [calcular_tamanho_diretorio, allFiles, foldl_tamanho, calc_eq_forest subs]
    simp

/- The walked total of a list of subdirectories equals the sum of the sizes
of all reachable files whose stat succeeds. -/
theorem calc_eq_forest (ts : FSForest) :
    calcular_tamanho_forest ts = ((allFilesForest ts).filterMap FSFile.size).sum := by
  cases ts with
  | nil => rw [calcular_tamanho_forest, allFilesForest]; simp
  | cons t ts2 =>
    rw [calcular_tamanho_forest, allFilesForest, calc_eq_tree t, calc_eq_forest ts2]
    simp

end

/-- Claim C5: calcular_tamanho_diretorio returns the sum of the sizes of
every regular file recursively reachable under the directory; a file whose
stat fails (size none) contributes nothing and raises no error. -/
theorem C5_tamanho_diretorio (t : FSTree) :
    calcular_tamanho_diretorio t = ((allFiles t).filterMap FSFile.size).sum :=
  calc_eq_tree t

/- The loop comparison at stage k, over exact rationals, as a bound on the
original byte count. -/
theorem div_pow_lt_iff (n k : Nat) :
    ((n : ℚ) / 1024 ^ k < 1024) ↔ n < 1024 ^ (k + 1) := by
  rw [div_lt_iff₀ (by positivity), ← pow_succ']
  exact_mod_cast Iff.rfl

/- One more division by 1024 raises the exponent by one. -/
theorem div_pow_succ (n k : Nat) :
    (n : ℚ) / 1024 ^ k / 1024 = (n : ℚ) / 1024 ^ (k + 1) := by
  rw [div_div, ← pow_succ]

/- Closed form of formatar_tamanho: the value is the byte count divided by
1024 to the chosen unit index, and the unit is the one of specUnit. -/
theorem formatar_eq (n : Nat) :
    formatar_tamanho n = ((n : ℚ) / 1024 ^ unitIndex n, specUnit n) := by
  have e1 : (n : ℚ) / 1024 = (n : ℚ) / 1024 ^ 1 := by norm_num
  have e2 : (n : ℚ) / 1024 / 1024 = (n : ℚ) / 1024 ^ 2 := by rw [e1, div_pow_succ]
  have e3 : (n : ℚ) / 1024 / 1024 / 1024 = (n : ℚ) / 1024 ^ 3 := by rw [e2, div_pow_succ]
  have e4 : (n : ℚ) / 1024 / 1024 / 1024 / 1024 = (n : ℚ) / 1024 ^ 4 := by
    rw [e3, div_pow_succ]
  have e5 : (n : ℚ) / 1024 / 1024 / 1024 / 1024 / 1024 = (n : ℚ) / 1024 ^ 5 := by
    rw [e4, div_pow_succ]
  unfold formatar_tamanho
  simp only [formatar_tamanho_loop]
  by_cases h1 : n < 1024
  · have c1 : (n : ℚ) < 1024 := by exact_mod_cast h1
    rw [if_pos c1]
    unfold unitIndex specUnit
    rw [if_pos h1, if_pos h1]
    norm_num
  have c1 : ¬((n : ℚ) < 1024) := by exact_mod_cast h1
  rw [if_neg c1]
  by_cases h2 : n < 1024 ^ 2
  · have c2 : (n : ℚ) / 1024 < 1024 := by rw [e1]; exact (div_pow_lt_iff n 1).mpr h2
    rw [if_pos c2, e1]
    unfold unitIndex specUnit
    rw [if_neg h1, if_pos h2, if_neg h1, if_pos h2]
  have c2 : ¬((n : ℚ) / 1024 < 1024) := by
    rw [e1]; exact fun hc => h2 ((div_pow_lt_iff n 1).mp hc)
  rw [if_neg c2]
  by_cases h3 : n < 1024 ^ 3
  · have c3 : (n : ℚ) / 1024 / 1024 < 1024 := by
      rw [e2]; exact (div_pow_lt_iff n 2).mpr h3
    rw [if_pos c3, e2]
    unfold unitIndex specUnit
    rw [if_neg h1, if_neg h2, if_pos h3, if_neg h1, if_neg h2, if_pos h3]
  have c3 : ¬((n : ℚ) / 1024 / 1024 < 1024) := by
    rw [e2]; exact fun hc => h3 ((div_pow_lt_iff n 2).mp hc)
  rw [if_neg c3]
  by_cases h4 : n < 1024 ^ 4
  · have c4 : (n : ℚ) / 1024 / 1024 / 1024 < 1024 := by
      rw [e3]; exact (div_pow_lt_iff n 3).mpr h4
    rw [if_pos c4, e3]
    unfold unitIndex specUnit
    rw [if_neg h1, if_neg h2, if_neg h3, if_pos h4,
      if_neg h1, if_neg h2, if_neg h3, if_pos h4]
  have c4 : ¬((n : ℚ) / 1024 / 1024 / 1024 < 1024) := by
    rw [e3]; exact fun hc => h4 ((div_pow_lt_iff n 3).mp hc)
  rw [if_neg c4]
  by_cases h5 : n < 1024 ^ 5
  · have c5 : (n : ℚ) / 1024 / 1024 / 1024 / 1024 < 1024 := by
      rw [e4]; exact (div_pow_lt_iff n 4).mpr h5
    rw [if_pos c5, e4]
    unfold unitIndex specUnit
    rw [if_neg h1, if_neg h2, if_neg h3, if_neg h4, if_pos h5,
      if_neg h1, if_neg h2, if_neg h3, if_neg h4, if_pos h5]
  have c5 : ¬((n : ℚ) / 1024 / 1024 / 1024 / 1024 < 1024) := by
    rw [e4]; exact fun hc => h5 ((div_pow_lt_iff n 4).mp hc)
  rw [if_neg c5, e5]
  unfold unitIndex specUnit
  rw [if_neg h1, if_neg h2, if_neg h3, if_neg h4, if_neg h5,
    if_neg h1, if_neg h2, if_neg h3, if_neg h4, if_neg h5]

/-- Claim C6: formatar_tamanho renders a byte count with binary 1024-based
units, choosing B exactly below 1024, KB exactly below 1024 squared, and so
on through TB, falling through to PB above the TB range; the value shown is
the count divided by 1024 raised to the unit index, and it stays below 1024
whenever the chosen unit is not PB. -/
theorem C6_formatar_tamanho (n : Nat) :
    (formatar_tamanho n).2 = specUnit n ∧
    (formatar_tamanho n).1 = (n : ℚ) / 1024 ^ unitIndex n ∧
    (specUnit n ≠ "PB" → (formatar_tamanho n).1 < 1024) := by
  refine ⟨by rw [formatar_eq], by rw [formatar_eq], ?_⟩
  intro hpb
  rw [formatar_eq]
  rw [div_pow_lt_iff]
  unfold specUnit at hpb
  unfold unitIndex
  split_ifs at hpb ⊢ with h1 h2 h3 h4 h5
  · simpa using h1
  · simpa using h2
  · simpa using h3
  · simpa using h4
  · simpa using h5
  · exact absurd rfl hpb

/-- Witness for claim C6 at 5000 bytes, whose unit is KB. -/
theorem C6_formatar_tamanho_witness : (formatar_tamanho 5000).1 < 1024 :=
  (C6_formatar_tamanho 5000).2.2 (by decide)

/-- Claim C7: when the source directory does not exist, the run creates no
archive file (the only file creation is the log file opened for logging),
never invokes the prune step, and reports the failure by logging the
missing-source error. -/
theorem C7_source_missing (o d : Path) (m : Nat) (la : Option Path) (ts : Path)
    (t g : Nat) (dd : List FileEntry) (cd : String → Bool) :
    (main_run o d m la ts false t g dd cd).filter isCreateFile
      = [Effect.createFile (la.getD (joinPath (joinPath d "logs".toList)
          ("backup_".toList ++ ts ++ ".log".toList)))] ∧
    (main_run o d m la ts false t g dd cd).any isPruneCall = false ∧
    (main_run o d m la ts false t g dd cd).any isLogErrorMissing = true := by
  refine ⟨?_, ?_, ?_⟩ <;>
    simp [main_run, isCreateFile, isPruneCall, isLogErrorMissing, List.filter_cons]

/-- Claim C10: every run of main, before the source directory is checked,
creates the logs directory under the destination and opens a log file
inside it; in particular a run that fails because the source is missing has
already mutated the destination filesystem. -/
theorem C10_mutation_before_check (o d : Path) (m : Nat) (ts : Path) (b : Bool)
    (t g : Nat) (dd : List FileEntry) (cd : String → Bool) :
    (main_run o d m none ts b t g dd cd).take 2
      = [Effect.makedirs (joinPath d "logs".toList),
         Effect.createFile (joinPath (joinPath d "logs".toList)
           ("backup_".toList ++ ts ++ ".log".toList))] ∧
    (main_run o d m none ts false t g dd cd).any isMutation = true := by
  constructor
  · cases b <;> simp [main_run]
  · simp [main_run, isMutation]

/- Taking the length of the first list plus k elements of an append takes
the whole first list and k elements of the second. -/
theorem take_append_len {α : Type} (a b : List α) (k : Nat) :
    (a ++ b).take (a.length + k) = a ++ b.take k := by
  induction a with
  | nil => simp
  | cons x xs ih =>
    simp only [List.cons_append, List.length_cons]
    rw [Nat.add_right_comm, List.take_succ_cons, ih]

/- The final component of a path extended by ".temp.tar" is the final
component of the path extended by ".temp.tar". -/
theorem finalComponent_temp (d : Path) :
    finalComponent (d ++ ".temp.tar".toList)
      = (d.reverse.takeWhile (fun c => c ≠ '/')).reverse ++ ".temp.tar".toList := by
  unfold finalComponent
  rw [List.reverse_append]
  have hT : (".temp.tar".toList).reverse = ['r', 'a', 't', '.', 'p', 'm', 'e', 't', '.'] := rfl
  rw [hT, List.takeWhile_append_of_pos (by decide), List.reverse_append]
  rfl

/- splitext on a path extended by ".temp.tar" splits off exactly ".tar". -/
theorem splitext_temp (d : Path) :
    splitext (d ++ ".temp.tar".toList) = (d ++ ".temp".toList, ".tar".toList) := by
  have hfc := finalComponent_temp d
  set e := (d.reverse.takeWhile (fun c => c ≠ '/')).reverse with he
  have hext : extTailRev (d ++ ".temp.tar".toList) = ['r', 'a', 't'] := by
    unfold extTailRev
    rw [hfc, List.reverse_append]
    have hT : (".temp.tar".toList).reverse = ['r', 'a', 't', '.', 'p', 'm', 'e', 't', '.'] := rfl
    rw [hT]
    rfl
  have hlfc : (finalComponent (d ++ ".temp.tar".toList)).length = e.length + 9 := by
    rw [hfc]
    simp
  unfold splitext
  rw [hext, hlfc]
  have hne : ¬((['r', 'a', 't'] : Path).length = e.length + 9) := by
    simp
  rw [if_neg hne]
  have harith : e.length + 9 - (['r', 'a', 't'] : Path).length - 1 = e.length + 5 := by
    simp
  rw [harith, hfc]
  have htake : (e ++ ".temp.tar".toList).take (e.length + 5) = e ++ ['.', 't', 'e', 'm', 'p'] := by
    rw [take_append_len]
    rfl
  rw [htake]
  have hany : ((e ++ ['.', 't', 'e', 'm', 'p']).any (fun c => c ≠ '.')) = true := by
    rw [List.any_append]
    have h2 : ((['.', 't', 'e', 'm', 'p'] : Path).any (fun c => c ≠ '.')) = true := rfl
    rw [h2, Bool.or_true]
  rw [if_pos hany]
  have hlen : (d ++ ".temp.tar".toList).length = d.length + 9 := by simp
  rw [hlen]
  have harith2 : d.length + 9 - (['r', 'a', 't'] : Path).length - 1 = d.length + 5 := by
    simp
  rw [harith2]
  have htake2 : (d ++ ".temp.tar".toList).take (d.length + 5) = d ++ ['.', 't', 'e', 'm', 'p'] := by
    rw [take_append_len]
    rfl
  rw [htake2]
  rfl

/- Appending slash-free characters to a path does not change its head. -/
theorem dirnameHead_append (x y : Path) (hy : ∀ c ∈ y, c ≠ '/') :
    dirnameHead (x ++ y) = dirnameHead x := by
  unfold dirnameHead
  rw [List.reverse_append,
    List.dropWhile_append_of_pos
      (fun a ha => decide_eq_true (hy a (List.mem_reverse.mp ha)))]

/- Appending slash-free characters to a path does not change its dirname. -/
theorem dirname_append (x y : Path) (hy : ∀ c ∈ y, c ≠ '/') :
    dirname (x ++ y) = dirname x := by
  unfold dirname
  rw [dirnameHead_append x y hy]

/-- Claim C8, refuting evaluation: the single temporary file created and
later removed by a successful run of comprimir_pasta is named by appending
".temp.tar" to the destination path, so its name does not carry a ".temp"
suffix as the claim states (its suffix is ".temp.tar"). -/
theorem C8_temp_suffix_counterexample :
    (comprimir_pasta "data".toList "backups/b.tar.gz".toList 10 5).effects
      = [Effect.createFile "backups/b.tar.gz.temp.tar".toList,
         Effect.createFile "backups/b.tar.gz".toList,
         Effect.removeFile "backups/b.tar.gz.temp.tar".toList] ∧
    List.isSuffixOf ".temp".toList
      (comprimir_pasta "data".toList "backups/b.tar.gz".toList 10 5).temp_tar = false := by
  constructor
  · rfl
  · rfl

/-- Claim C8 as amended: on every successful call, comprimir_pasta creates
exactly one temporary file, named by appending ".temp.tar" to the
destination path and therefore lying in the same directory as the
destination, and removes it before returning; besides that temporary file
the only filesystem mutation is the creation of the single output archive
file. -/
theorem C8_temp_file_amended (o d : Path) (t g : Nat) :
    (comprimir_pasta o d t g).effects
      = [Effect.createFile (d ++ ".temp.tar".toList),
         Effect.createFile d,
         Effect.removeFile (d ++ ".temp.tar".toList)] ∧
    (comprimir_pasta o d t g).temp_tar = d ++ ".temp.tar".toList ∧
    dirname ((comprimir_pasta o d t g).temp_tar) = dirname d := by
  have hbase : (splitext (d ++ ".temp.tar".toList)).1 ++ ".tar".toList
      = d ++ ".temp.tar".toList := by
    rw [splitext_temp, List.append_assoc]
    rfl
  refine ⟨?_, rfl, ?_⟩
  · show [Effect.createFile ((splitext (d ++ ".temp.tar".toList)).1 ++ ".tar".toList),
      Effect.createFile d, Effect.removeFile (d ++ ".temp.tar".toList)] = _
    rw [hbase]
  · show dirname (d ++ ".temp.tar".toList) = dirname d
    exact dirname_append d (".temp.tar".toList) (by decide)

/-- Claim C9: comprimir_pasta hands the archive builder the dirname of the
source directory as root_dir and its basename as base_dir; for a source
path of the form parent/name with a slash-free name and a parent not ending
in a slash, these are exactly the parent and the directory name, so the
name of the directory is the single top-level entry of the archive rather
than its contents being flattened. -/
theorem C9_archive_root (p0 : Path) (c : Char) (n d : Path) (t g : Nat)
    (hc : c ≠ '/') (hn : ∀ x ∈ n, x ≠ '/') :
    (comprimir_pasta ((p0 ++ [c]) ++ '/' :: n) d t g).root_dir = p0 ++ [c] ∧
    (comprimir_pasta ((p0 ++ [c]) ++ '/' :: n) d t g).base_dir = n := by
  constructor
  · show dirname ((p0 ++ [c]) ++ '/' :: n) = p0 ++ [c]
    unfold dirname dirnameHead
    rw [List.reverse_append, List.reverse_cons, List.append_assoc,
      List.dropWhile_append_of_pos
        (fun a ha => decide_eq_true (hn a (List.mem_reverse.mp ha)))]
    simp [List.dropWhile_cons, List.all_append, hc]
  · show basename ((p0 ++ [c]) ++ '/' :: n) = n
    unfold basename
    rw [List.reverse_append, List.reverse_cons, List.append_assoc,
      List.takeWhile_append_of_pos
        (fun a ha => decide_eq_true (hn a (List.mem_reverse.mp ha)))]
    simp [List.takeWhile_cons]

/-- Witness for claim C9 at source path hom/data. -/
theorem C9_archive_root_witness :
    (comprimir_pasta (("ho".toList ++ ['m']) ++ '/' :: "data".toList)
        "dest/b.tar.gz".toList 4 2).root_dir = "ho".toList ++ ['m'] ∧
    (comprimir_pasta (("ho".toList ++ ['m']) ++ '/' :: "data".toList)
        "dest/b.tar.gz".toList 4 2).base_dir = "data".toList :=
  C9_archive_root "ho".toList 'm' "data".toList "dest/b.tar.gz".toList 4 2
    (by decide) (by decide)

end Backup
